import Mathlib

/-!
Verification of the preamble-reordering engine (`RpmPreamble` in
`rpmpreamble.py`).  The engine's own code is embedded faithfully below;
the external collaborators the spec declares out of scope (the `Section`
line sink, the compiled pattern table `self.reg`, the on-disk conversion
tables) are modelled from the spec and marked as such.
-/

namespace SpecCleaner

/-- Runtime errors of the engine.  `rpmException` embeds the source's
`RpmException`; the remaining constructors embed the Python runtime errors
the source can raise (attribute lookup failure, `int()` on a bad literal,
wrong dynamic type, index out of range). -/
inductive Err where
  | rpmException (msg : String)
  | attributeError (msg : String)
  | valueError (msg : String)
  | typeError (msg : String)
  | indexError (msg : String)
deriving DecidableEq, Repr

/-- A dynamically typed value stored in a paragraph category slot.  The
source stores either a plain string line or a list (a group of lines);
`other` stands for a value of any further Python type, carrying the name
of that type, so that the source's `type(...)` dispatch is embedded
honestly. -/
inductive PyVal where
  | str (s : String)
  | list (l : List PyVal)
  | other (typeName : String)
deriving Repr

/-- The two conversion tables, loaded once per engine instance from the
external data files (`licenses_changes.txt`, `pkgconfig_conversions.txt`).
Both map a key to a value; the package table's value is a space-separated
list. -/
structure Tables where
  license_conversions : List (String × String)
  pkgconfig_conversions : List (String × String)

/-- Dictionary lookup (`dict[key]` / `has_key`). -/
def lookupTab (t : List (String × String)) (k : String) : Option String :=
  (t.find? (fun p => p.1 == k)).map (fun p => p.2)

/-! ### Stable sorting

Python's `list.sort` is a stable ascending sort.  A stable sort for a
total preorder is extensionally unique, so we model it with a stable
insertion sort: `sinsert` places the new element before the first
strictly greater element, hence after every earlier element of equal
key. -/

/-- Python 2's ordering on byte strings: lexicographic, by character
code.  (Defined on the character lists directly so that it evaluates by
reduction.) -/
def strLeAux : List Char → List Char → Bool
  | [], _ => true
  | _ :: _, [] => false
  | a :: as, b :: bs =>
    if a.toNat = b.toNat then strLeAux as bs
    else decide (a.toNat < b.toNat)

/-- Python 2's `<=` on strings. -/
def pystr_le (a b : String) : Bool := strLeAux a.data b.data

def sinsert (le : α → α → Bool) (a : α) : List α → List α
  | [] => [a]
  | b :: l => if le a b then a :: b :: l else b :: sinsert le a l

def ssort (le : α → α → Bool) : List α → List α
  | [] => []
  | a :: l => sinsert le a (ssort le l)

/-! ### Modelled external string helpers -/

/-- Modelled from the spec: `_complete_cleanup` (inherited from the
external `Section` base class) performs in-place cleanup, trimming and
normalizing superfluous blank content; a line consisting only of
whitespace becomes the empty line, other lines pass through. -/
def complete_cleanup (line : String) : String :=
  if line.data.all (fun c => c.isWhitespace) then "" else line

/-- Modelled from the spec: `strip_useless_spaces` (external `Section`
helper) whitespace-trims a token. -/
def strip_useless_spaces (s : String) : String :=
  String.mk (((s.data.dropWhile (fun c => c.isWhitespace)).reverse.dropWhile
    (fun c => c.isWhitespace)).reverse)

/-- Python `str.replace(pat, r)` for a non-empty pattern `ph :: pt`:
replace every (leftmost, non-overlapping) occurrence.  Recursion is by
fuel so the kernel can evaluate it; every step consumes at least one
character, so fuel equal to the input length always suffices. -/
def py_replace_core (ph : Char) (pt : List Char) (r : List Char) : Nat → List Char → List Char
  | _, [] => []
  | 0, l => l
  | fuel + 1, c :: cs =>
    if (ph :: pt).isPrefixOf (c :: cs) then
      r ++ py_replace_core ph pt r fuel (cs.drop pt.length)
    else c :: py_replace_core ph pt r fuel cs

/-- Python `str.replace` (the empty-pattern case never arises in the
source's calls). -/
def py_replace (s pat r : String) : String :=
  match pat.data with
  | [] => s
  | ph :: pt => String.mk (py_replace_core ph pt r.data s.data.length s.data)

/-- Python `str.split()`: split on whitespace runs, dropping empty
fields. -/
def py_split_ws (s : String) : List String :=
  ((s.data.splitOnP (fun c => c.isWhitespace)).filter (fun l => !l.isEmpty)).map String.mk

/-- Python `int(s)` for our inputs: a non-empty all-digit string parses to
its value, anything else raises `ValueError`. -/
def py_int? (s : String) : Option Nat :=
  if s.data ≠ [] ∧ s.data.all (fun c => c.isDigit) then
    some (s.data.foldl (fun n c => n * 10 + (c.toNat - 48)) 0)
  else none

/-- Python `key.find(pat) != -1`: substring containment. -/
def contains_seq (pat : List Char) : List Char → Bool
  | [] => pat.isEmpty
  | c :: cs => pat.isPrefixOf (c :: cs) || contains_seq pat cs

/-- Python `' '.join(l)`. -/
def join_spaces : List String → String
  | [] => ""
  | [x] => x
  | x :: xs => x ++ " " ++ join_spaces xs

/-! ### Modelled pattern table (`self.reg`)

The spec places the regex/pattern table outside the engine ("assumed
pre-built", an external collaborator).  Each model below states the rule
shape it implements. -/

/-- Modelled from the spec: a plain tag rule `^Tag:\s*(.*)$` of the
external pattern table — the tag, a colon, optional whitespace, and the
captured value. -/
def matchTag (tag line : String) : Option String :=
  if (tag ++ ":").data.isPrefixOf line.data then
    some (String.mk ((line.data.drop (tag.data.length + 1)).dropWhile (fun c => c.isWhitespace)))
  else none

/-- Modelled from the spec: a numbered resource rule `^Tag(\d*):\s*(.*)$`
(used for `re_source` and `re_patch`), capturing the numeric suffix text
(possibly empty) and the value. -/
def matchNumTag (tag line : String) : Option (String × String) :=
  if tag.data.isPrefixOf line.data then
    let rest := line.data.drop tag.data.length
    let digits := rest.takeWhile (fun c => c.isDigit)
    match rest.drop digits.length with
    | ':' :: rest3 =>
      some ( String.mk digits, String.mk (rest3.dropWhile (fun c => c.isWhitespace)))
    | _ => none
  else none

/-- Modelled from the spec: a rule for a tag carrying a parenthesized
argument, `^Tag\((...)\):\s*(.*)$` (used for `re_requires_phase` and
`re_summary_localized`); the first capture keeps its parentheses, as the
source re-emits it inside the key. -/
def matchParenTag (tag line : String) : Option (String × String) :=
  if (tag ++ "(").data.isPrefixOf line.data then
    let rest := line.data.drop (tag.data.length + 1)
    let inner := rest.takeWhile (fun c => c != ')')
    match rest.drop inner.length with
    | ')' :: ':' :: rest3 =>
      some ( "(" ++ String.mk inner ++ ")",
             String.mk (rest3.dropWhile (fun c => c.isWhitespace)))
    | _ => none
  else none

/-- Modelled from the spec: `re_if` recognizes conditional-directive
lines (`%if`/`%else`/`%endif`), which mark paragraph boundaries. -/
def re_if (line : String) : Bool :=
  "%if".data.isPrefixOf line.data || "%else".data.isPrefixOf line.data ||
    "%endif".data.isPrefixOf line.data

/-- Modelled from the spec: `re_comment` recognizes comment lines. -/
def re_comment (line : String) : Bool :=
  "#".data.isPrefixOf line.data

/-- Modelled from the spec: `re_define` recognizes inline macro
definitions `%define ...`, capturing the remainder as the value. -/
def matchDefine (line : String) : Option String :=
  if "%define ".data.isPrefixOf line.data then
    some (String.mk ((line.data.drop 8).dropWhile (fun c => c.isWhitespace)))
  else none

/-- Modelled from the spec: `re_requires_token.match(value)` succeeds when
the value holds at least one dependency token; otherwise the whole value
passes through unexpanded. -/
def requires_token_match (value : String) : Bool :=
  !(py_split_ws value).isEmpty

/-- Modelled from the spec: `re_requires_token.findall` splits a raw value
into comma-or-whitespace-separated dependency tokens, where a token is a
package name with an optional version qualifier (one of `<` `<=` `=` `>=`
`>` plus an operand). -/
def requires_tokens (value : String) : List String :=
  (value.data.splitOnP (fun c => c == ',')).flatMap (fun part =>
    let part := String.mk part
    if part.data.any (fun c => c == '<' || c == '>' || c == '=') then
      [strip_useless_spaces part]
    else py_split_ws part)

/-! ### The engine's category tables (from the source) -/

def category_to_key : List (String × String) :=
  [ ("define", "%define"), ("name", "Name"), ("version", "Version"),
    ("release", "Release"), ("license", "License"), ("summary", "Summary"),
    ("url", "Url"), ("group", "Group"), ("source", "Source"), ("patch", "Patch"),
    ("buildrequires", "BuildRequires"), ("prereq", "PreReq"),
    ("requires", "Requires"), ("recommends", "Recommends"),
    ("suggests", "Suggests"), ("supplements", "Supplements"),
    ("buildroot", "BuildRoot"), ("buildarch", "BuildArch"), ("epoch", "Epoch")]

def categories_order : List String :=
  [ "define", "name", "version", "release", "license", "summary",
    "summary_localized", "url", "group", "source", "patch", "buildrequires",
    "requires", "prereq", "requires_phase", "recommends", "suggests",
    "supplements", "provides_obsoletes", "buildroot", "buildarch", "misc"]

def categories_with_sorted_package_tokens : List String :=
  [ "buildrequires", "prereq", "requires", "recommends", "suggests", "supplements"]

def categories_with_sorted_keyword_tokens : List String :=
  [ "source", "patch"]

def categories_with_package_tokens : List String :=
  categories_with_sorted_package_tokens ++ [ "provides_obsoletes"]

/-! ### Value normalization -/

/-- The separator-keeping split of `_fix_license`:
`re.split('(\(|\)| and | or )', value)`, scanning left to right and
keeping each separator as its own piece.  Recursion is by fuel so the
kernel can evaluate it; every step consumes at least one character, so
fuel equal to the input length always suffices. -/
def license_split (acc : List Char) : Nat → List Char → List String
  | _, [] => [ String.mk acc.reverse]
  | 0, l => [ String.mk (acc.reverse ++ l)]
  | fuel + 1, '(' :: cs => String.mk acc.reverse :: "(" :: license_split [] fuel cs
  | fuel + 1, ')' :: cs => String.mk acc.reverse :: ")" :: license_split [] fuel cs
  | fuel + 1, c :: cs =>
    if (c :: cs).take 5 = " and ".data then
      String.mk acc.reverse :: " and " :: license_split [] fuel (cs.drop 4)
    else if (c :: cs).take 4 = " or ".data then
      String.mk acc.reverse :: " or " :: license_split [] fuel (cs.drop 3)
    else license_split (c :: acc) fuel cs

/-- `RpmPreamble._fix_license`: split on boolean operators and
parentheses, trim each token, spell out the deprecated `ORlater`/`ORsim`
suffixes, apply the license-alias table, and rejoin with tightened
parenthesis spacing. -/
def fix_license (t : Tables) (value : String) : String :=
  let licenses := (license_split [] value.data.length value.data).filter (fun a => a != "")
  let licenses := licenses.map (fun lic =>
    let lic := strip_useless_spaces lic
    let lic := py_replace lic "ORlater" "or later"
    let lic := py_replace lic "ORsim" "or similar"
    match lookupTab t.license_conversions lic with
    | some l => l
    | none => lic)
  py_replace (py_replace (join_spaces licenses) "( " "(") " )" ")"

/-- `RpmPreamble._pkgname_to_pkgconfig`: if the bare package name is in
the conversion table, expand it to one `pkgconfig(...)` query per listed
name, each inheriting the original version qualifier; otherwise pass the
token through.  (On an empty token the source would raise `IndexError`;
that case is unreachable from `_fix_list_of_packages`, whose tokens are
never empty.) -/
def pkgname_to_pkgconfig (t : Tables) (value : String) : List String :=
  match py_split_ws value with
  | [] => [value]
  | pkgname :: _ =>
    let version := py_replace value pkgname ""
    match lookupTab t.pkgconfig_conversions pkgname with
    | none => [value]
    | some conv => (py_split_ws conv).map (fun j => "pkgconfig(" ++ j ++ ")" ++ version)

/-- The operator-spacing normalization `re.sub(r'([<>]=?|=)', r' \1 ', token)`. -/
def add_op_spaces : List Char → List Char
  | [] => []
  | '<' :: '=' :: cs => ' ' :: '<' :: '=' :: ' ' :: add_op_spaces cs
  | '>' :: '=' :: cs => ' ' :: '>' :: '=' :: ' ' :: add_op_spaces cs
  | '<' :: cs => ' ' :: '<' :: ' ' :: add_op_spaces cs
  | '>' :: cs => ' ' :: '>' :: ' ' :: add_op_spaces cs
  | '=' :: cs => ' ' :: '=' :: ' ' :: add_op_spaces cs
  | c :: cs => c :: add_op_spaces cs

/-- `RpmPreamble._fix_list_of_packages`: split a dependency value into
tokens, normalize each (version-release collapse, whitespace and comma
removal, operator spacing), expand through the package-name conversion
table, and sort the expanded list ascending. -/
def fix_list_of_packages (t : Tables) (value : String) : List String :=
  if requires_token_match value then
    let expanded := (requires_tokens value).foldl (fun acc token =>
      let token := py_replace token "%{version}-%{release}" "%{version}"
      let token := py_replace token " " ""
      let token := py_replace token "," ""
      let token := String.mk (add_op_spaces token.data)
      acc ++ pkgname_to_pkgconfig t token) []
    ssort pystr_le expanded
  else [value]

/-! ### Sort keys -/

/-- A Python 2 sort key as produced by `_sort_helper_key`: either an
`int` (numbered resources) or a `str` (prefixed package tokens).  In
Python 2, every `int` compares below every `str`. -/
inductive SKey where
  | int (n : Nat)
  | str (s : String)
deriving DecidableEq, Repr

/-- Python 2's `<=` on the mixed `int`/`str` keys. -/
def skeyLe : SKey → SKey → Bool
  | SKey.int a, SKey.int b => a ≤ b
  | SKey.int _, SKey.str _ => true
  | SKey.str _, SKey.int _ => false
  | SKey.str a, SKey.str b => pystr_le a b

/-- The key derivation of `_sort_helper_key` applied to a final line:
a patch or source line keys to the integer parsed from its numeric
suffix (absent source suffix defaulting to `'0'`); any other line keys
to itself prefixed with a discriminator, `'1'` for `pkgconfig()`-style
tokens and `'0'` for plain ones. -/
def sort_key_of_line (key : String) : Except Err SKey :=
  match matchNumTag "Patch" key with
  | some (digits, _) =>
    match py_int? digits with
    | some n => Except.ok (SKey.int n)
    | none => Except.error (Err.valueError ("invalid literal for int(): " ++ digits))
  | none =>
    match matchNumTag "Source" key with
    | some (digits, _) =>
      let v := if digits = "" then "0" else digits
      match py_int? v with
      | some n => Except.ok (SKey.int n)
      | none => Except.error (Err.valueError ("invalid literal for int(): " ++ v))
    | none =>
      if contains_seq "pkgconfig(".data key.data then Except.ok (SKey.str ("1" ++ key))
      else Except.ok (SKey.str ("0" ++ key))

/-- `RpmPreamble._sort_helper_key`: a plain string keys on itself, a list
keys on its last element; any other value raises `RpmException`.  (A list
whose last element is not a string would make the regex match raise
`TypeError`, and an empty list `IndexError`, exactly as `a[-1]` and
`re.match` would.) -/
def sort_helper_key : PyVal → Except Err SKey
  | PyVal.str s => sort_key_of_line s
  | PyVal.list l =>
    match l.getLast? with
    | some (PyVal.str s) => sort_key_of_line s
    | some _ => Except.error (Err.typeError "expected string or buffer")
    | none => Except.error (Err.indexError "list index out of range")
  | PyVal.other t => Except.error (Err.rpmException ("Unknown type during sort: " ++ t))

/-- `list.sort(key=self._sort_helper_key)`: compute every key (raising if
any computation raises), then sort stably by key. -/
def sort_groups (l : List PyVal) : Except Err (List PyVal) :=
  (l.mapM (fun g => (sort_helper_key g).map (fun k => (k, g)))).map
    (fun keyed => (ssort (fun a b => skeyLe a.1 b.1) keyed).map (fun p => p.2))

/-! ### The paragraph state -/

/-- The engine state: the paragraph (a slot of groups per category name),
the pending group buffer, the lookback record of the most recently
committed line, and the lines handed to the external `Section` sink so
far. -/
structure EngineState where
  paragraph : String → List PyVal
  current_group : List String
  previous_line : Option String
  lines : List String

def update_paragraph (p : String → List PyVal) (c : String) (v : List PyVal) :
    String → List PyVal :=
  fun c' => if c' = c then v else p c'

/-- `RpmPreamble._add_line_to`: wrap the pending buffer (if any) with the
line into a group, commit it to the category, and record the line as the
previous line. -/
def add_line_to (s : EngineState) (category line : String) : EngineState :=
  match s.current_group with
  | [] =>
    { s with
      paragraph := update_paragraph s.paragraph category
        (s.paragraph category ++ [ PyVal.str line]),
      previous_line := some line }
  | cg =>
    { s with
      paragraph := update_paragraph s.paragraph category
        (s.paragraph category ++ [ PyVal.list ((cg ++ [line]).map PyVal.str)]),
      current_group := [],
      previous_line := some line }

/-- `len('BuildRequires:  ')`, the alignment target of
`_add_line_value_to`. -/
def keylen : Nat := "BuildRequires:  ".data.length

/-- The key formatting of `_add_line_value_to`: append the colon, add one
space if the result already reaches the alignment width, then pad with
spaces up to the width. -/
def format_key (key : String) : String :=
  let key := key ++ ":"
  let key := if keylen ≤ key.data.length then key ++ " " else key
  key ++ String.mk (List.replicate (keylen - key.data.length) ' ')

/-- `RpmPreamble._add_line_value_to`: resolve the key (explicit, or from
the category table, or raise `RpmException`), format it, expand the value
for package-token categories, and commit one line per resulting value.
(The source tests the explicit key by truthiness, `if key:`; no call
site passes an empty key, so `some k` here always stands for a non-empty
explicit key.) -/
def add_line_value_to (t : Tables) (s : EngineState) (category value : String)
    (key? : Option String) : Except Err EngineState :=
  let commit : String → EngineState := fun k =>
    let key := format_key k
    let values := if category ∈ categories_with_package_tokens
      then fix_list_of_packages t value else [value]
    values.foldl (fun st v => add_line_to st category (key ++ v)) s
  match key? with
  | some k => Except.ok (commit k)
  | none =>
    match lookupTab category_to_key category with
    | some k => Except.ok (commit k)
    | none => Except.error (Err.rpmException ("Unhandled category in preamble: " ++ category))

/-! ### Group flattening and paragraph closure -/

mutual
/-- `RpmPreamble._add_group`: a string is one output line, a list is
flattened recursively, anything else raises `RpmException`. -/
def add_group : PyVal → Except Err (List String)
  | PyVal.str s => Except.ok [s]
  | PyVal.list l => add_group_list l
  | PyVal.other t =>
    Except.error (Err.rpmException ("Unknown type of group in preamble: " ++ t))

def add_group_list : List PyVal → Except Err (List String)
  | [] => Except.ok []
  | g :: gs => do
    let a ← add_group g
    let b ← add_group_list gs
    pure (a ++ b)
end

/-- The loop body of `_end_paragraph` for one category: sort the groups
when the category is sortable, then flatten them to output lines. -/
def category_output (s : EngineState) (i : String) : Except Err (List String) := do
  let groups := s.paragraph i
  let groups ← if i ∈ categories_with_sorted_package_tokens
    then sort_groups groups else pure groups
  let groups ← if i ∈ categories_with_sorted_keyword_tokens
    then sort_groups groups else pure groups
  add_group_list groups

/-- `RpmPreamble._start_paragraph`: reset every category slot and the
pending buffer. -/
def start_paragraph_state (s : EngineState) : EngineState :=
  { s with paragraph := fun _ => [], current_group := [] }

/-- `RpmPreamble._end_paragraph`: emit every category in
`categories_order` (sorting the sortable ones), then any leftover pending
buffer, then reset the paragraph. -/
def end_paragraph (s : EngineState) : Except Err EngineState := do
  let out ← categories_order.foldlM (fun acc i => do
      let ls ← category_output s i
      pure (acc ++ ls)) ([] : List String)
  let out ← match s.current_group with
    | [] => pure out
    | cg => do
      let ls ← add_group (PyVal.list (cg.map PyVal.str))
      pure (out ++ ls)
  pure (start_paragraph_state { s with lines := s.lines ++ out })

/-! ### Line dispatch (`RpmPreamble.add`) -/

def patch_missing_comment : String :=
  "# PATCH-MISSING-TAG -- See http://wiki.opensuse.org/openSUSE:Packaging_Patches_guidelines"

def prereq_fixme_comment : String := "# FIXME: use proper Requires(pre/post/preun/...)"

def buildroot_value : String := "%{_tmppath}/%{name}-%{version}-build"

/-- Modelled from the spec: the deprecated-construct table
`category_to_clean` (`re_vendor`, `re_autoreqprov`, `re_epoch`) — matching
lines are silently discarded. -/
def category_to_clean_tags : List String := [ "Vendor", "AutoReqProv", "Epoch"]

/-- Modelled from the spec: the generic rule table `category_to_re` of
tag rules that need no special handling.  One rule per category; the
rules are mutually exclusive, so the iteration order of the source's
dictionary is immaterial. -/
def category_to_re_list : List (String × String) :=
  [ ("name", "Name"), ("version", "Version"), ("summary", "Summary"),
    ("url", "Url"), ("group", "Group"), ("buildrequires", "BuildRequires"),
    ("requires", "Requires"), ("recommends", "Recommends"),
    ("suggests", "Suggests"), ("supplements", "Supplements"),
    ("buildarch", "BuildArch")]

def classify_simple (line : String) : Option (String × String) :=
  match matchDefine line with
  | some v => some ( "define", v)
  | none => category_to_re_list.findSome? (fun p => (matchTag p.2 line).map (fun v => (p.1, v)))

/-- The classification outcome of one cleaned line, following the
if/elif chain of `RpmPreamble.add` in source order: each constructor
corresponds to one branch, and a line is classified by the first rule
that matches it. -/
inductive LineClass where
  | blank
  | ifDirective
  | comment
  | source (digits value : String)
  | patch (digits value : String)
  | prereq (value : String)
  | requiresPhase (phase value : String)
  | provides (value : String)
  | obsoletes (value : String)
  | buildroot (value : String)
  | license (value : String)
  | release (value : String)
  | summaryLocalized (lang value : String)
  | deprecatedTag
  | simple (category value : String)
  | misc
deriving DecidableEq, Repr

def classify (line : String) : LineClass :=
  if line.data.isEmpty then LineClass.blank
  else if re_if line then LineClass.ifDirective
  else if re_comment line then LineClass.comment
  else
    match matchNumTag "Source" line with
    | some (d, v) => LineClass.source d v
    | none =>
      match matchNumTag "Patch" line with
      | some (d, v) => LineClass.patch d v
      | none =>
        match matchTag "PreReq" line with
        | some v => LineClass.prereq v
        | none =>
          match matchParenTag "Requires" line with
          | some (ph, v) => LineClass.requiresPhase ph v
          | none =>
            match matchTag "Provides" line with
            | some v => LineClass.provides v
            | none =>
              match matchTag "Obsoletes" line with
              | some v => LineClass.obsoletes v
              | none =>
                match matchTag "BuildRoot" line with
                | some v => LineClass.buildroot v
                | none =>
                  match matchTag "License" line with
                  | some v => LineClass.license v
                  | none =>
                    match matchTag "Release" line with
                    | some v => LineClass.release v
                    | none =>
                      match matchParenTag "Summary" line with
                      | some (lang, v) => LineClass.summaryLocalized lang v
                      | none =>
                        if category_to_clean_tags.any
                            (fun tag => (matchTag tag line).isSome) then
                          LineClass.deprecatedTag
                        else
                          match classify_simple line with
                          | some (c, v) => LineClass.simple c v
                          | none => LineClass.misc

/-- The truthiness-and-comment test of the patch branch:
`self.previous_line and re_comment.match(self.previous_line)`. -/
def prev_is_comment : Option String → Bool
  | none => false
  | some p => !p.data.isEmpty && re_comment p

/-- `RpmPreamble.add`: clean the line, classify it, and dispatch.  The
`provides`/`obsoletes` branches embed the source as written: it reads
`self.re_provides` / `self.re_obsoletes`, attributes that are never
defined (the compiled patterns live on `self.reg`), so the branch raises
`AttributeError` before committing anything. -/
def add (t : Tables) (s : EngineState) (rawLine : String) : Except Err EngineState :=
  let line := complete_cleanup rawLine
  match classify line with
  | LineClass.blank => Except.ok s
  | LineClass.ifDirective => do
    let s := { s with current_group := s.current_group ++ [line] }
    let s ← end_paragraph s
    pure { s with previous_line := some line }
  | LineClass.comment =>
    Except.ok { s with current_group := s.current_group ++ [line],
                       previous_line := some line }
  | LineClass.source d v => add_line_value_to t s "source" v (some ("Source" ++ d))
  | LineClass.patch d v =>
    let s :=
      if prev_is_comment s.previous_line then s
      else { s with current_group := s.current_group ++ [patch_missing_comment],
                    previous_line := some line }
    let zero := if d = "" then "0" else ""
    add_line_value_to t s "patch" v (some ("Patch" ++ zero ++ d))
  | LineClass.prereq v =>
    let s := { s with current_group := s.current_group ++ [prereq_fixme_comment] }
    add_line_value_to t s "prereq" v none
  | LineClass.requiresPhase ph v =>
    add_line_value_to t s "prereq" v (some ("Requires" ++ ph))
  | LineClass.provides _ =>
    Except.error (Err.attributeError "RpmPreamble instance has no attribute re_provides")
  | LineClass.obsoletes _ =>
    Except.error (Err.attributeError "RpmPreamble instance has no attribute re_obsoletes")
  | LineClass.buildroot _ =>
    match s.paragraph "buildroot" with
    | [] => add_line_value_to t s "buildroot" buildroot_value none
    | _ => Except.ok s
  | LineClass.license v => add_line_value_to t s "license" (fix_license t v) none
  | LineClass.release _ => add_line_value_to t s "release" "0" none
  | LineClass.summaryLocalized lang v =>
    add_line_value_to t s "summary_localized" v (some ("Summary" ++ lang))
  | LineClass.deprecatedTag => Except.ok s
  | LineClass.simple c v => add_line_value_to t s c v none
  | LineClass.misc => Except.ok (add_line_to s "misc" line)

/-- A freshly constructed engine: empty paragraph, empty buffer, no
previous line, no output yet. -/
def init_state : EngineState :=
  { paragraph := fun _ => [], current_group := [], previous_line := none, lines := [] }

/-- Feed a sequence of input lines through `add`. -/
def add_all (t : Tables) (s : EngineState) (ls : List String) : Except Err EngineState :=
  ls.foldlM (add t) s

/-- `RpmPreamble.output`: close the final paragraph and append the
trailing empty line. -/
def output (s : EngineState) : Except Err EngineState := do
  let s ← end_paragraph s
  pure { s with lines := s.lines ++ [ ""] }

/-- The whole engine on one document: feed every line, then emit. -/
def run (t : Tables) (input : List String) : Except Err (List String) := do
  let s ← add_all t init_state input
  let s ← output s
  pure s.lines

/-- An engine instance with empty conversion tables. -/
def empty_tables : Tables := { license_conversions := [], pkgconfig_conversions := [] }

/-! ### Derived notions used by the theorems -/

instance {ε α : Type} [DecidableEq ε] [DecidableEq α] : DecidableEq (Except ε α) :=
  fun a b =>
    match a, b with
    | Except.ok x, Except.ok y =>
      match decEq x y with
      | isTrue h => isTrue (by rw [h])
      | isFalse h => isFalse (fun hh => h (by injection hh))
    | Except.ok _, Except.error _ => isFalse (fun hh => by injection hh)
    | Except.error _, Except.ok _ => isFalse (fun hh => by injection hh)
    | Except.error x, Except.error y =>
      match decEq x y with
      | isTrue h => isTrue (by rw [h])
      | isFalse h => isFalse (fun hh => h (by injection hh))

/-- The group `_add_line_to` commits for one line: the line alone when the
pending buffer is empty, else the buffer wrapped up with the line. -/
def commit_group (cg : List String) (line : String) : PyVal :=
  match cg with
  | [] => PyVal.str line
  | cg => PyVal.list ((cg ++ [line]).map PyVal.str)

/-- The category-slot entries a run of `_add_line_to` commits for a list
of lines: the first line absorbs the pending buffer, the rest are plain
lines (the buffer is empty from the second commit on). -/
def committed (cg : List String) : List String → List PyVal
  | [] => []
  | l :: ls => commit_group cg l :: ls.map PyVal.str

/-- The value list `_add_line_value_to` commits: expanded for
package-token categories, a single value otherwise. -/
def committed_values (t : Tables) (category value : String) : List String :=
  if category ∈ categories_with_package_tokens then fix_list_of_packages t value else [value]

/-- The pending buffer in effect when a patch line commits: unchanged
after a comment, else extended with the synthetic missing-tag warning. -/
def patch_cg (s : EngineState) : List String :=
  if prev_is_comment s.previous_line then s.current_group
  else s.current_group ++ [patch_missing_comment]

/-- The category rank of each emitted line, one rank per line, when the
category blocks are laid out in order starting at rank `k`. -/
def rank_seq : Nat → List (List String) → List Nat
  | _, [] => []
  | k, o :: os => List.replicate o.length k ++ rank_seq (k + 1) os

/-- The alias table of the spec's license example: deprecated `Foo` maps
to canonical `Foo-1.0`, deprecated `Bar` to `Bar-2.0`. -/
def c4_tables : Tables :=
  { license_conversions := [ ("Foo", "Foo-1.0"), ("Bar", "Bar-2.0")],
    pkgconfig_conversions := [] }

/-- A concrete mid-document engine state: two unsorted build-dependency
groups, a pending trailing comment, and one line already emitted. -/
def c2_state : EngineState :=
  { paragraph := fun c => if c = "buildrequires"
      then [ PyVal.str "BuildRequires:  zlib", PyVal.str "BuildRequires:  gcc"] else [],
    current_group := [ "# end"],
    previous_line := none,
    lines := [ "Name:           pkg"] }

/-! ### Helper lemmas about committing lines -/

theorem add_line_to_paragraph_self (s : EngineState) (c l : String) :
    (add_line_to s c l).paragraph c = s.paragraph c ++ [ commit_group s.current_group l] := by
  cases h : s.current_group <;>
    simp [add_line_to, h, commit_group, update_paragraph]

theorem add_line_to_paragraph_ne (s : EngineState) (c c' l : String) (h : c' ≠ c) :
    (add_line_to s c l).paragraph c' = s.paragraph c' := by
  cases hcg : s.current_group <;>
    simp [add_line_to, hcg, update_paragraph, h]

theorem add_line_to_current_group (s : EngineState) (c l : String) :
    (add_line_to s c l).current_group = [] := by
  cases h : s.current_group <;> simp [add_line_to, h]

theorem add_line_to_lines (s : EngineState) (c l : String) :
    (add_line_to s c l).lines = s.lines := by
  cases h : s.current_group <;> simp [add_line_to, h]

theorem committed_nil_buffer : ∀ ls : List String, committed [] ls = ls.map PyVal.str
  | [] => rfl
  | _ :: _ => rfl

theorem foldl_add_line_to_paragraph (c : String) :
    ∀ (ls : List String) (s : EngineState),
      ((ls.foldl (fun st v => add_line_to st c v) s).paragraph c)
        = s.paragraph c ++ committed s.current_group ls
  | [], s => by simp [committed]
  | l :: ls, s => by
    have h1 := foldl_add_line_to_paragraph c ls (add_line_to s c l)
    simp only [List.foldl_cons] at h1 ⊢
    rw [h1, add_line_to_current_group, add_line_to_paragraph_self, committed_nil_buffer,
      List.append_assoc]
    rfl

theorem foldl_add_line_to_paragraph_ne (c c' : String) (h : c' ≠ c) :
    ∀ (ls : List String) (s : EngineState),
      ((ls.foldl (fun st v => add_line_to st c v) s).paragraph c') = s.paragraph c'
  | [], s => rfl
  | l :: ls, s => by
    have h1 := foldl_add_line_to_paragraph_ne c c' h ls (add_line_to s c l)
    simp only [List.foldl_cons] at h1 ⊢
    rw [h1, add_line_to_paragraph_ne _ _ _ _ h]

theorem foldl_add_line_to_lines (c : String) :
    ∀ (ls : List String) (s : EngineState),
      ((ls.foldl (fun st v => add_line_to st c v) s).lines) = s.lines
  | [], s => rfl
  | l :: ls, s => by
    have h1 := foldl_add_line_to_lines c ls (add_line_to s c l)
    simp only [List.foldl_cons] at h1 ⊢
    rw [h1, add_line_to_lines]

theorem foldl_keyed_commit (c key : String) (vals : List String) (s : EngineState) :
    ((vals.foldl (fun st v => add_line_to st c (key ++ v)) s).paragraph c
       = s.paragraph c ++ committed s.current_group (vals.map (fun v => key ++ v))) ∧
    (∀ c', c' ≠ c → (vals.foldl (fun st v => add_line_to st c (key ++ v)) s).paragraph c'
       = s.paragraph c') ∧
    ((vals.foldl (fun st v => add_line_to st c (key ++ v)) s).lines = s.lines) := by
  rw [← List.foldl_map (fun v => key ++ v) (fun st v => add_line_to st c v)]
  exact ⟨foldl_add_line_to_paragraph c _ s,
    fun c' h => foldl_add_line_to_paragraph_ne c c' h _ s,
    foldl_add_line_to_lines c _ s⟩

theorem add_line_value_to_some_spec (t : Tables) (s : EngineState) (category value k : String) :
    ∃ s', add_line_value_to t s category value (some k) = Except.ok s' ∧
      s'.paragraph category = s.paragraph category ++
        committed s.current_group ((committed_values t category value).map
          (fun v => format_key k ++ v)) ∧
      (∀ c', c' ≠ category → s'.paragraph c' = s.paragraph c') ∧
      s'.lines = s.lines := by
  obtain ⟨h1, h2, h3⟩ := foldl_keyed_commit category (format_key k)
    (if category ∈ categories_with_package_tokens then fix_list_of_packages t value
      else [value]) s
  exact ⟨_, rfl, h1, h2, h3⟩

theorem add_line_value_to_none_spec (t : Tables) (s : EngineState) (category value k : String)
    (hk : lookupTab category_to_key category = some k) :
    ∃ s', add_line_value_to t s category value none = Except.ok s' ∧
      s'.paragraph category = s.paragraph category ++
        committed s.current_group ((committed_values t category value).map
          (fun v => format_key k ++ v)) ∧
      (∀ c', c' ≠ category → s'.paragraph c' = s.paragraph c') ∧
      s'.lines = s.lines := by
  have h := add_line_value_to_some_spec t s category value k
  have heq : add_line_value_to t s category value none =
      add_line_value_to t s category value (some k) := by
    unfold add_line_value_to
    rw [hk]
  rw [heq]
  exact h

/-! ### Stable-sort lemmas -/

theorem except_bind_ok {ε α β : Type} {x : Except ε α} {f : α → Except ε β} {b : β}
    (h : (x >>= f) = Except.ok b) : ∃ a, x = Except.ok a ∧ f a = Except.ok b := by
  cases x with
  | error e => simp [Bind.bind, Except.bind] at h
  | ok a => exact ⟨a, rfl, by simpa [Bind.bind, Except.bind] using h⟩

theorem mem_sinsert {α : Type} (le : α → α → Bool) (a x : α) :
    ∀ l : List α, x ∈ sinsert le a l ↔ x = a ∨ x ∈ l
  | [] => by simp [sinsert]
  | b :: l => by
    unfold sinsert
    split
    · simp [List.mem_cons]
    · rw [List.mem_cons, mem_sinsert le a x l, List.mem_cons]
      tauto

theorem sinsert_perm {α : Type} (le : α → α → Bool) (a : α) :
    ∀ l : List α, (sinsert le a l).Perm (a :: l)
  | [] => List.Perm.refl _
  | b :: l => by
    unfold sinsert
    split
    · exact List.Perm.refl _
    · exact ((sinsert_perm le a l).cons b).trans (List.Perm.swap a b l)

theorem ssort_perm {α : Type} (le : α → α → Bool) :
    ∀ l : List α, (ssort le l).Perm l
  | [] => List.Perm.refl _
  | a :: l => (sinsert_perm le a (ssort le l)).trans ((ssort_perm le l).cons a)

theorem pairwise_sinsert {α : Type} (le : α → α → Bool)
    (htrans : ∀ a b c, le a b = true → le b c = true → le a c = true)
    (htotal : ∀ a b, le a b = true ∨ le b a = true) (a : α) :
    ∀ l : List α, l.Pairwise (fun x y => le x y = true) →
      (sinsert le a l).Pairwise (fun x y => le x y = true)
  | [], _ => by simp [sinsert]
  | b :: l, hp => by
    unfold sinsert
    split
    next hab =>
      refine List.Pairwise.cons ?_ hp
      intro x hx
      rcases List.mem_cons.mp hx with rfl | hx
      · exact hab
      · exact htrans a b x hab (List.rel_of_pairwise_cons hp hx)
    next hab =>
      have hba : le b a = true := (htotal a b).resolve_left hab
      refine List.Pairwise.cons ?_ (pairwise_sinsert le htrans htotal a l hp.of_cons)
      intro x hx
      rcases (mem_sinsert le a x _).mp hx with rfl | hx
      · exact hba
      · exact List.rel_of_pairwise_cons hp hx

theorem pairwise_ssort {α : Type} (le : α → α → Bool)
    (htrans : ∀ a b c, le a b = true → le b c = true → le a c = true)
    (htotal : ∀ a b, le a b = true ∨ le b a = true) :
    ∀ l : List α, (ssort le l).Pairwise (fun x y => le x y = true)
  | [] => List.Pairwise.nil
  | a :: l => pairwise_sinsert le htrans htotal a _ (pairwise_ssort le htrans htotal l)

theorem filter_sinsert_pos {α : Type} (le : α → α → Bool) (p : α → Bool) (a : α)
    (hpa : p a = true) (hk : ∀ b, p b = true → le a b = true) :
    ∀ l : List α, (sinsert le a l).filter p = a :: l.filter p
  | [] => by simp [sinsert, hpa]
  | b :: l => by
    unfold sinsert
    split
    next hab => simp [List.filter_cons, hpa]
    next hab =>
      have hpb : p b = false := by
        cases hpbt : p b
        · rfl
        · exact absurd (hk b hpbt) hab
      simp [List.filter_cons, hpb, filter_sinsert_pos le p a hpa hk l]

theorem filter_sinsert_neg {α : Type} (le : α → α → Bool) (p : α → Bool) (a : α)
    (hpa : p a = false) :
    ∀ l : List α, (sinsert le a l).filter p = l.filter p
  | [] => by simp [sinsert, hpa]
  | b :: l => by
    unfold sinsert
    split
    next => simp [List.filter_cons, hpa]
    next => simp [List.filter_cons, filter_sinsert_neg le p a hpa l]

theorem filter_ssort {α : Type} (le : α → α → Bool) (p : α → Bool)
    (hkey : ∀ a b, p a = true → p b = true → le a b = true) :
    ∀ l : List α, (ssort le l).filter p = l.filter p
  | [] => rfl
  | a :: l => by
    unfold ssort
    cases hpa : p a
    · rw [filter_sinsert_neg le p a hpa, filter_ssort le p hkey l,
        List.filter_cons_of_neg (by simp [hpa])]
    · rw [filter_sinsert_pos le p a hpa (fun b hb => hkey a b hpa hb),
        filter_ssort le p hkey l, List.filter_cons_of_pos (by simp [hpa])]

/-! ### Sort-key order lemmas -/

theorem strLeAux_refl : ∀ l : List Char, strLeAux l l = true
  | [] => rfl
  | a :: l => by simp [strLeAux, strLeAux_refl l]

theorem strLeAux_total : ∀ as bs : List Char, strLeAux as bs = true ∨ strLeAux bs as = true
  | [], _ => Or.inl rfl
  | _ :: _, [] => Or.inr rfl
  | a :: as, b :: bs => by
    by_cases hab : a.toNat = b.toNat
    · simp only [strLeAux, if_pos hab, if_pos hab.symm]
      exact strLeAux_total as bs
    · simp only [strLeAux, if_neg hab,
        if_neg (fun hh : b.toNat = a.toNat => hab hh.symm), decide_eq_true_eq]
      omega

theorem strLeAux_trans : ∀ as bs cs : List Char,
    strLeAux as bs = true → strLeAux bs cs = true → strLeAux as cs = true
  | [], _, _, _, _ => rfl
  | _ :: _, [], _, h1, _ => by simp [strLeAux] at h1
  | _ :: _, _ :: _, [], _, h2 => by simp [strLeAux] at h2
  | a :: as, b :: bs, c :: cs, h1, h2 => by
    by_cases hab : a.toNat = b.toNat <;> by_cases hbc : b.toNat = c.toNat
    · rw [strLeAux, if_pos hab] at h1
      rw [strLeAux, if_pos hbc] at h2
      rw [strLeAux, if_pos (hab.trans hbc)]
      exact strLeAux_trans as bs cs h1 h2
    · rw [strLeAux, if_neg hbc, decide_eq_true_eq] at h2
      rw [strLeAux, if_neg (fun hh : a.toNat = c.toNat => hbc (hab.symm.trans hh)),
        decide_eq_true_eq]
      omega
    · rw [strLeAux, if_neg hab, decide_eq_true_eq] at h1
      rw [strLeAux, if_neg (fun hh : a.toNat = c.toNat => hab (hh.trans hbc.symm)),
        decide_eq_true_eq]
      omega
    · rw [strLeAux, if_neg hab, decide_eq_true_eq] at h1
      rw [strLeAux, if_neg hbc, decide_eq_true_eq] at h2
      rw [strLeAux, if_neg (by omega : ¬ a.toNat = c.toNat), decide_eq_true_eq]
      omega

theorem skeyLe_refl (a : SKey) : skeyLe a a = true := by
  cases a with
  | int n => simp [skeyLe]
  | str s => exact strLeAux_refl s.data

theorem skeyLe_trans : ∀ a b c : SKey,
    skeyLe a b = true → skeyLe b c = true → skeyLe a c = true
  | SKey.int _, SKey.int _, SKey.int _, h1, h2 => by
    simp only [skeyLe, decide_eq_true_eq] at h1 h2 ⊢
    omega
  | SKey.int _, SKey.int _, SKey.str _, _, _ => rfl
  | SKey.int _, SKey.str _, SKey.str _, _, _ => rfl
  | SKey.int _, SKey.str _, SKey.int _, _, h2 => by simp [skeyLe] at h2
  | SKey.str _, SKey.int _, _, h1, _ => by simp [skeyLe] at h1
  | SKey.str _, SKey.str _, SKey.int _, _, h2 => by simp [skeyLe] at h2
  | SKey.str x, SKey.str y, SKey.str z, h1, h2 => by
    simp only [skeyLe] at h1 h2 ⊢
    exact strLeAux_trans x.data y.data z.data h1 h2

theorem skeyLe_total : ∀ a b : SKey, skeyLe a b = true ∨ skeyLe b a = true
  | SKey.int x, SKey.int y => by
    simp only [skeyLe, decide_eq_true_eq]
    omega
  | SKey.int _, SKey.str _ => Or.inl rfl
  | SKey.str _, SKey.int _ => Or.inr rfl
  | SKey.str x, SKey.str y => by
    simp only [skeyLe]
    exact strLeAux_total x.data y.data

/-! ### Sorting a category -/

theorem mapM_keyed_spec :
    ∀ (l : List PyVal) (keyed : List (SKey × PyVal)),
      l.mapM (fun g => (sort_helper_key g).map (fun k => (k, g))) = Except.ok keyed →
      keyed.map Prod.snd = l ∧ ∀ p ∈ keyed, sort_helper_key p.2 = Except.ok p.1
  | [], keyed, h => by
    rw [List.mapM_nil] at h
    injection h with h
    rw [← h]
    exact ⟨rfl, by simp⟩
  | g :: l, keyed, h => by
    rw [List.mapM_cons] at h
    obtain ⟨kg, hkg, h⟩ := except_bind_ok h
    obtain ⟨ks, hks, h⟩ := except_bind_ok h
    injection h with h
    obtain ⟨h1, h2⟩ := mapM_keyed_spec l ks hks
    cases hsk : sort_helper_key g with
    | error e =>
      rw [hsk] at hkg
      simp [Except.map] at hkg
    | ok k =>
      rw [hsk] at hkg
      simp only [Except.map] at hkg
      injection hkg with hkg
      rw [← h, ← hkg]
      refine ⟨by rw [List.map_cons, h1], ?_⟩
      intro p hp
      rcases List.mem_cons.mp hp with rfl | hp
      · exact hsk
      · exact h2 p hp

theorem mapM_of_keyed :
    ∀ kl : List (SKey × PyVal), (∀ p ∈ kl, sort_helper_key p.2 = Except.ok p.1) →
      (kl.map Prod.snd).mapM sort_helper_key = Except.ok (kl.map Prod.fst)
  | [], _ => rfl
  | p :: kl, h => by
    rw [List.map_cons, List.map_cons, List.mapM_cons, h p (List.mem_cons_self p kl),
      mapM_of_keyed kl (fun q hq => h q (List.mem_cons_of_mem p hq))]
    rfl

theorem sort_groups_spec (l gs' : List PyVal) (h : sort_groups l = Except.ok gs') :
    gs'.Perm l ∧
    (∃ ks, gs'.mapM sort_helper_key = Except.ok ks ∧
      List.Pairwise (fun a b => skeyLe a b = true) ks) ∧
    (∀ k : SKey, gs'.filter (fun g => decide (sort_helper_key g = Except.ok k)) =
      l.filter (fun g => decide (sort_helper_key g = Except.ok k))) := by
  unfold sort_groups at h
  cases hm : l.mapM (fun g => (sort_helper_key g).map (fun k => (k, g))) with
  | error e =>
    rw [hm] at h
    simp [Except.map] at h
  | ok keyed =>
    rw [hm] at h
    simp only [Except.map] at h
    injection h with h
    obtain ⟨hsnd, hmem⟩ := mapM_keyed_spec l keyed hm
    have hmemsort : ∀ p ∈ ssort (fun a b => skeyLe a.1 b.1) keyed,
        sort_helper_key p.2 = Except.ok p.1 :=
      fun p hp => hmem p ((ssort_perm _ keyed).mem_iff.mp hp)
    have hcongr : ∀ (k : SKey) (m : List (SKey × PyVal)),
        (∀ p ∈ m, sort_helper_key p.2 = Except.ok p.1) →
        m.filter ((fun g => decide (sort_helper_key g = Except.ok k)) ∘ Prod.snd) =
        m.filter (fun p => decide (p.1 = k)) := by
      intro k m hm2
      apply List.filter_congr
      intro p hp
      simp only [Function.comp_apply]
      rw [decide_eq_decide, hm2 p hp]
      simp
    refine ⟨?_, ⟨?_, ?_, ?_⟩, ?_⟩
    · rw [← h, ← hsnd]
      exact (ssort_perm _ keyed).map Prod.snd
    · exact (ssort (fun a b => skeyLe a.1 b.1) keyed).map Prod.fst
    · rw [← h]
      exact mapM_of_keyed _ hmemsort
    · have hp := pairwise_ssort (fun a b : SKey × PyVal => skeyLe a.1 b.1)
        (fun a b c h1 h2 => skeyLe_trans a.1 b.1 c.1 h1 h2)
        (fun a b => skeyLe_total a.1 b.1) keyed
      exact hp.map Prod.fst (fun a b hab => hab)
    · intro k
      rw [← h, ← hsnd, List.filter_map, List.filter_map,
        hcongr k _ hmemsort, hcongr k _ hmem,
        filter_ssort (fun a b : SKey × PyVal => skeyLe a.1 b.1) (fun p => decide (p.1 = k))
          (fun a b ha hb => by
            have ha' : a.1 = k := of_decide_eq_true ha
            have hb' : b.1 = k := of_decide_eq_true hb
            show skeyLe a.1 b.1 = true
            rw [ha', hb']
            exact skeyLe_refl k) keyed]

/-! ### Paragraph closure structure -/

theorem foldlM_append_eq_mapM (f : String → Except Err (List String)) :
    ∀ (l : List String) (acc : List String),
      (l.foldlM (fun acc i => do
          let ls ← f i
          pure (acc ++ ls)) acc) =
        (l.mapM f).map (fun outs => acc ++ outs.join)
  | [], acc => by
    rw [List.foldlM_nil, List.mapM_nil]
    show (Except.ok acc : Except Err (List String)) =
      Except.map (fun outs => acc ++ outs.join) (Except.ok [])
    simp [Except.map]
  | i :: l, acc => by
    rw [List.foldlM_cons, List.mapM_cons]
    cases hf : f i with
    | error e => rfl
    | ok o =>
      show (l.foldlM (fun acc i => do
          let ls ← f i
          pure (acc ++ ls)) (acc ++ o)) =
        ((l.mapM f >>= fun os => pure (o :: os)).map (fun outs => acc ++ outs.join))
      rw [foldlM_append_eq_mapM f l (acc ++ o)]
      cases hm : l.mapM f with
      | error e => rfl
      | ok outs =>
        simp [Except.map, Bind.bind, Except.bind, Pure.pure, Except.pure,
          List.append_assoc]

theorem add_group_map_str (cg : List String) :
    add_group (PyVal.list (cg.map PyVal.str)) = Except.ok cg := by
  have hl : ∀ cg2 : List String, add_group_list (cg2.map PyVal.str) = Except.ok cg2 := by
    intro cg2
    induction cg2 with
    | nil => rfl
    | cons c cs ih =>
      rw [List.map_cons, add_group_list, ih]
      rfl
  rw [add_group]
  exact hl cg

/-! ### Rank sequences -/

theorem rank_seq_ge :
    ∀ (os : List (List String)) (k r : Nat), r ∈ rank_seq k os → k ≤ r
  | [], k, r, h => by simp [rank_seq] at h
  | o :: os, k, r, h => by
    rw [rank_seq] at h
    rcases List.mem_append.mp h with h | h
    · rw [List.eq_of_mem_replicate h]
    · exact Nat.le_of_succ_le (rank_seq_ge os (k + 1) r h)

theorem pairwise_le_replicate :
    ∀ (n k : Nat), (List.replicate n k).Pairwise (fun a b : Nat => a ≤ b)
  | 0, _ => List.Pairwise.nil
  | n + 1, k => by
    rw [List.replicate_succ]
    exact List.Pairwise.cons
      (fun b hb => le_of_eq (List.eq_of_mem_replicate hb).symm)
      (pairwise_le_replicate n k)

theorem rank_seq_pairwise :
    ∀ (os : List (List String)) (k : Nat),
      (rank_seq k os).Pairwise (fun a b : Nat => a ≤ b)
  | [], _ => List.Pairwise.nil
  | o :: os, k => by
    rw [rank_seq]
    refine List.pairwise_append.mpr
      ⟨pairwise_le_replicate o.length k, rank_seq_pairwise os (k + 1), ?_⟩
    intro a ha b hb
    rw [List.eq_of_mem_replicate ha]
    exact Nat.le_of_succ_le (rank_seq_ge os (k + 1) b hb)

theorem rank_seq_length :
    ∀ (os : List (List String)) (k : Nat), (rank_seq k os).length = os.join.length
  | [], _ => rfl
  | o :: os, k => by
    simp [rank_seq, rank_seq_length os (k + 1)]

/-! ### Claim theorems -/

/-- C1: the engine is not idempotent.  On the input consisting of the
single line `PreReq: foo`, the first run emits the synthetic FIXME
comment followed by the canonical PreReq line; running the engine again
on that very output emits the FIXME comment twice, because the
pre-requisite branch of `add` appends the synthetic comment
unconditionally on every encounter.  The spec's idempotence property
fails, so re-processing an already-canonical paragraph adds a new line. -/
theorem run_on_own_output_adds_duplicate_fixme :
    run empty_tables [ "PreReq: foo"] =
      Except.ok [ prereq_fixme_comment, "PreReq:         foo", ""] ∧
    run empty_tables [ prereq_fixme_comment, "PreReq:         foo", ""] =
      Except.ok [ prereq_fixme_comment, prereq_fixme_comment, "PreReq:         foo", ""] ∧
    ([ prereq_fixme_comment, "PreReq:         foo", ""] : List String) ≠
      [ prereq_fixme_comment, prereq_fixme_comment, "PreReq:         foo", ""] :=
  ⟨rfl, rfl, by decide⟩

/-- C3: a line matching the Provides pattern (and likewise Obsoletes)
makes `add` raise `AttributeError` instead of committing the value,
because the source reads the patterns from `self.re_provides` /
`self.re_obsoletes`, attributes that are never defined (the compiled
patterns live on `self.reg`). -/
theorem provides_obsoletes_branches_raise :
    add empty_tables init_state "Provides: libfoo" =
      Except.error (Err.attributeError "RpmPreamble instance has no attribute re_provides") ∧
    add empty_tables init_state "Obsoletes: libbar" =
      Except.error (Err.attributeError "RpmPreamble instance has no attribute re_obsoletes") :=
  ⟨rfl, rfl⟩

/-- C4 (counterexample): on `License: FooORlater and (BarORsim)` with the
example alias table, the engine does not emit the claimed
`License: Foo-1.0 or later and (Bar-2.0 or similar)`: the `ORlater` /
`ORsim` suffix rewriting inserts no space (giving `Fooor later` and
`Baror similar`), the alias lookup is performed on the whole rewritten
token and therefore misses, and no alias substitution happens. -/
theorem license_example_emits_fused_tokens :
    run c4_tables [ "License: FooORlater and (BarORsim)"] =
      Except.ok [ "License:        Fooor later and (Baror similar)", ""] ∧
    fix_license c4_tables "FooORlater and (BarORsim)" ≠
      "Foo-1.0 or later and (Bar-2.0 or similar)" ∧
    ("License:        Fooor later and (Baror similar)" : String) ≠
      "License:        Foo-1.0 or later and (Bar-2.0 or similar)" :=
  ⟨rfl, by decide, by decide⟩

/-- C4 (amended): on `License: FooORlater and (BarORsim)` with the
example alias table the engine emits
`License:        Fooor later and (Baror similar)`: the deprecated
suffixes are rewritten textually without inserting a space, the alias
lookup (applied to each whole rewritten token) fails on the fused
tokens, and the parenthesis spacing is tightened. -/
theorem license_example_actual_output :
    run c4_tables [ "License: FooORlater and (BarORsim)"] =
      Except.ok [ "License:        Fooor later and (Baror similar)", ""] := rfl

/-- C5 (counterexample): a patch line with an absent numeric suffix is
not emitted with the suffix text preserved: `Patch: fix.patch` is
emitted under the key `Patch0`, the absent suffix being rewritten to
`0` in the emitted key text itself, not only in the sort key. -/
theorem patch_absent_suffix_rewritten_in_key :
    run empty_tables [ "Patch: fix.patch"] =
      Except.ok [ patch_missing_comment, "Patch0:         fix.patch", ""] ∧
    "Patch:".data.isPrefixOf "Patch0:         fix.patch".data = false ∧
    "Patch0:".data.isPrefixOf "Patch0:         fix.patch".data = true :=
  ⟨rfl, by decide, by decide⟩

/-- C6 (counterexample): a phased-requirement line receives no synthetic
manual-review comment: from a fresh engine, `Requires(pre): foo` is
committed to the prereq category as a bare line with no attached comment
and an empty pending buffer. -/
theorem requires_phase_line_gets_no_comment :
    (add empty_tables init_state "Requires(pre): foo").map
      (fun s => (s.paragraph "prereq", s.current_group)) =
    Except.ok ([ PyVal.str "Requires(pre):  foo"], ([] : List String)) := rfl

/-- C7: configuration errors are fatal and immediate: committing a value
to a category name outside the key table with no explicit key raises
`RpmException` (returning no new state, hence no output line), and
flattening a group element that is neither a plain line nor a list
raises `RpmException` as well. -/
theorem config_errors_are_fatal :
    (∀ (t : Tables) (s : EngineState) (category value : String),
      lookupTab category_to_key category = none →
      add_line_value_to t s category value none =
        Except.error (Err.rpmException ("Unhandled category in preamble: " ++ category))) ∧
    (∀ typeName : String,
      add_group (PyVal.other typeName) =
        Except.error (Err.rpmException ("Unknown type of group in preamble: " ++ typeName))) ∧
    (∀ (typeName : String) (gs : List PyVal),
      add_group_list (PyVal.other typeName :: gs) =
        Except.error (Err.rpmException ("Unknown type of group in preamble: " ++ typeName))) := by
  refine ⟨?_, fun _ => rfl, fun _ _ => rfl⟩
  intro t s category value h
  unfold add_line_value_to
  rw [h]

/-- C7 (witness): the category name `sources` is not in the key table,
and committing to it without an explicit key raises; flattening an
`other`-shaped value raises. -/
theorem config_errors_are_fatal_witness :
    lookupTab category_to_key "sources" = none ∧
    add_line_value_to empty_tables init_state "sources" "x" none =
      Except.error (Err.rpmException ("Unhandled category in preamble: " ++ "sources")) ∧
    add_group_list [ PyVal.other "int"] =
      Except.error (Err.rpmException ("Unknown type of group in preamble: " ++ "int")) :=
  ⟨rfl, config_errors_are_fatal.1 empty_tables init_state "sources" "x" rfl,
    config_errors_are_fatal.2.2 "int" []⟩

theorem committed_values_single (t : Tables) (c value : String)
    (h : c ∉ categories_with_package_tokens) : committed_values t c value = [value] := by
  simp [committed_values, h]

theorem committed_values_packages (t : Tables) (c value : String)
    (h : c ∈ categories_with_package_tokens) :
    committed_values t c value = fix_list_of_packages t value := by
  simp [committed_values, h]

/-- C5 (amended): the numeric suffix text of the emitted key equals that
of the input key for source-like lines (including an absent suffix) and
for patch-like lines with a present suffix; a patch-like line with an
absent suffix is emitted under the key `Patch0`, the suffix text being
rewritten to `0` in the emitted key (while the absent suffix maps to sort
index 0 for either kind). -/
theorem add_dispatch_source (t : Tables) (s : EngineState) (l d v : String)
    (hcl : classify (complete_cleanup l) = LineClass.source d v) :
    add t s l = add_line_value_to t s "source" v (some ("Source" ++ d)) := by
  simp only [add, hcl]

theorem add_dispatch_patch (t : Tables) (s : EngineState) (l d v : String)
    (hcl : classify (complete_cleanup l) = LineClass.patch d v) :
    add t s l =
      add_line_value_to t
        (if prev_is_comment s.previous_line then s
         else { s with current_group := s.current_group ++ [patch_missing_comment],
                       previous_line := some (complete_cleanup l) })
        "patch" v (some ("Patch" ++ (if d = "" then "0" else "") ++ d)) := by
  simp only [add, hcl]

theorem add_dispatch_prereq (t : Tables) (s : EngineState) (l v : String)
    (hcl : classify (complete_cleanup l) = LineClass.prereq v) :
    add t s l =
      add_line_value_to t
        { s with current_group := s.current_group ++ [prereq_fixme_comment] }
        "prereq" v none := by
  simp only [add, hcl]

theorem add_dispatch_requires_phase (t : Tables) (s : EngineState) (l ph v : String)
    (hcl : classify (complete_cleanup l) = LineClass.requiresPhase ph v) :
    add t s l = add_line_value_to t s "prereq" v (some ("Requires" ++ ph)) := by
  simp only [add, hcl]

theorem numbered_resource_key_text (t : Tables) (s s' : EngineState) (l d v : String)
    (h : add t s l = Except.ok s') :
    (classify (complete_cleanup l) = LineClass.source d v →
      s'.paragraph "source" = s.paragraph "source" ++
        [ commit_group s.current_group (format_key ("Source" ++ d) ++ v)]) ∧
    (classify (complete_cleanup l) = LineClass.patch d v → d ≠ "" →
      s'.paragraph "patch" = s.paragraph "patch" ++
        [ commit_group (patch_cg s) (format_key ("Patch" ++ d) ++ v)]) ∧
    (classify (complete_cleanup l) = LineClass.patch d v → d = "" →
      s'.paragraph "patch" = s.paragraph "patch" ++
        [ commit_group (patch_cg s) (format_key "Patch0" ++ v)]) := by
  refine ⟨?_, ?_, ?_⟩
  · intro hcl
    rw [add_dispatch_source t s l d v hcl] at h
    obtain ⟨s'', hs'', hp, -, -⟩ := add_line_value_to_some_spec t s "source" v ("Source" ++ d)
    rw [hs''] at h
    injection h with h
    rw [← h, hp, committed_values_single t "source" v (by decide)]
    rfl
  · intro hcl hd
    rw [add_dispatch_patch t s l d v hcl] at h
    rw [if_neg hd] at h
    rw [show ("Patch" ++ "" : String) = "Patch" from rfl] at h
    cases hprev : prev_is_comment s.previous_line <;> rw [hprev] at h
    · rw [if_neg (by simp)] at h
      obtain ⟨s'', hs'', hp, -, -⟩ := add_line_value_to_some_spec t
        { s with current_group := s.current_group ++ [patch_missing_comment],
                 previous_line := some (complete_cleanup l) }
        "patch" v ("Patch" ++ d)
      rw [hs''] at h
      injection h with h
      rw [← h, hp, committed_values_single t "patch" v (by decide)]
      simp [patch_cg, hprev, committed]
    · rw [if_pos rfl] at h
      obtain ⟨s'', hs'', hp, -, -⟩ :=
        add_line_value_to_some_spec t s "patch" v ("Patch" ++ d)
      rw [hs''] at h
      injection h with h
      rw [← h, hp, committed_values_single t "patch" v (by decide)]
      simp [patch_cg, hprev, committed]
  · intro hcl hd
    subst hd
    rw [add_dispatch_patch t s l "" v hcl] at h
    rw [show (if ("" : String) = "" then "0" else "") = "0" from rfl] at h
    rw [show ("Patch" ++ "0" ++ "" : String) = "Patch0" from rfl] at h
    cases hprev : prev_is_comment s.previous_line <;> rw [hprev] at h
    · rw [if_neg (by simp)] at h
      obtain ⟨s'', hs'', hp, -, -⟩ := add_line_value_to_some_spec t
        { s with current_group := s.current_group ++ [patch_missing_comment],
                 previous_line := some (complete_cleanup l) }
        "patch" v "Patch0"
      rw [hs''] at h
      injection h with h
      rw [← h, hp, committed_values_single t "patch" v (by decide)]
      simp [patch_cg, hprev, committed]
    · rw [if_pos rfl] at h
      obtain ⟨s'', hs'', hp, -, -⟩ :=
        add_line_value_to_some_spec t s "patch" v "Patch0"
      rw [hs''] at h
      injection h with h
      rw [← h, hp, committed_values_single t "patch" v (by decide)]
      simp [patch_cg, hprev, committed]

/-- C5 (amended, witness): an explicitly numbered source line keeps its
suffix text in the emitted key. -/
theorem numbered_resource_key_text_witness :
    classify (complete_cleanup "Source2: s.tar") = LineClass.source "2" "s.tar" ∧
    ∃ s', add empty_tables init_state "Source2: s.tar" = Except.ok s' ∧
      s'.paragraph "source" = init_state.paragraph "source" ++
        [ commit_group init_state.current_group (format_key ("Source" ++ "2") ++ "s.tar")] :=
  ⟨rfl, _, rfl,
    (numbered_resource_key_text empty_tables init_state _ "Source2: s.tar" "2" "s.tar" rfl).1 rfl⟩

/-- C6 (amended): pre-requisite lines always receive the synthetic
manual-review comment, appended to the pending buffer before the line is
committed; phased-requirement (`Requires(phase)`) lines do not — they
are committed to the prereq category with the pending buffer unchanged
and no synthetic comment. -/
theorem prereq_fixme_only_for_prereq_lines (t : Tables) (s s' : EngineState) (l v ph : String)
    (h : add t s l = Except.ok s') :
    (classify (complete_cleanup l) = LineClass.prereq v →
      s'.paragraph "prereq" = s.paragraph "prereq" ++
        committed (s.current_group ++ [prereq_fixme_comment])
          ((fix_list_of_packages t v).map (fun w => format_key "PreReq" ++ w))) ∧
    (classify (complete_cleanup l) = LineClass.requiresPhase ph v →
      s'.paragraph "prereq" = s.paragraph "prereq" ++
        committed s.current_group
          ((fix_list_of_packages t v).map (fun w => format_key ("Requires" ++ ph) ++ w))) := by
  refine ⟨?_, ?_⟩
  · intro hcl
    rw [add_dispatch_prereq t s l v hcl] at h
    obtain ⟨s'', hs'', hp, -, -⟩ := add_line_value_to_none_spec t
      { s with current_group := s.current_group ++ [prereq_fixme_comment] }
      "prereq" v "PreReq" rfl
    rw [hs''] at h
    injection h with h
    rw [← h, hp, committed_values_packages t "prereq" v (by decide)]
  · intro hcl
    rw [add_dispatch_requires_phase t s l ph v hcl] at h
    obtain ⟨s'', hs'', hp, -, -⟩ :=
      add_line_value_to_some_spec t s "prereq" v ("Requires" ++ ph)
    rw [hs''] at h
    injection h with h
    rw [← h, hp, committed_values_packages t "prereq" v (by decide)]

/-- C6 (amended, witness): a concrete PreReq line commits with the FIXME
comment in its group. -/
theorem prereq_fixme_only_for_prereq_lines_witness :
    classify (complete_cleanup "PreReq: foo") = LineClass.prereq "foo" ∧
    ∃ s', add empty_tables init_state "PreReq: foo" = Except.ok s' ∧
      s'.paragraph "prereq" = init_state.paragraph "prereq" ++
        committed (init_state.current_group ++ [prereq_fixme_comment])
          ((fix_list_of_packages empty_tables "foo").map (fun w => format_key "PreReq" ++ w)) :=
  ⟨rfl, _, rfl,
    (prereq_fixme_only_for_prereq_lines empty_tables init_state _ "PreReq: foo" "foo" ""
      rfl).1 rfl⟩

/-- C8: every line committed through the key-value formatter starts its
value at a fixed column: the key plus `:` is right-padded with spaces to
exactly the 16-character width of `BuildRequires:  ` when shorter, and is
followed by exactly one space when already at least that wide; and every
line `_add_line_value_to` commits is the formatted key followed by the
value, for every category and explicit key. -/
theorem key_value_formatter_alignment :
    keylen = 16 ∧
    (∀ key : String, (key ++ ":").data.length < keylen →
      (format_key key).data = (key ++ ":").data ++
        List.replicate (keylen - (key ++ ":").data.length) ' ' ∧
      (format_key key).data.length = keylen) ∧
    (∀ key : String, keylen ≤ (key ++ ":").data.length →
      (format_key key).data = (key ++ ":").data ++ [' ']) ∧
    (∀ (t : Tables) (s : EngineState) (category value k : String) (s' : EngineState),
      add_line_value_to t s category value (some k) = Except.ok s' →
      s'.paragraph category = s.paragraph category ++
        committed s.current_group ((committed_values t category value).map
          (fun v => format_key k ++ v))) := by
  refine ⟨rfl, ?_, ?_, ?_⟩
  · intro key h
    constructor
    · simp only [format_key, if_neg (by omega : ¬ keylen ≤ (key ++ ":").data.length)]
      rfl
    · simp only [format_key, if_neg (by omega : ¬ keylen ≤ (key ++ ":").data.length)]
      have : ((key ++ ":") ++ String.mk
          (List.replicate (keylen - (key ++ ":").data.length) ' ')).data
          = (key ++ ":").data ++ List.replicate (keylen - (key ++ ":").data.length) ' ' := rfl
      rw [this, List.length_append, List.length_replicate]
      omega
  · intro key h
    simp only [format_key, if_pos h]
    have h0 : keylen - ((key ++ ":") ++ " ").data.length = 0 := by
      have hd : ((key ++ ":") ++ " ").data = (key ++ ":").data ++ [' '] := rfl
      rw [hd, List.length_append]
      simp only [List.length_cons, List.length_nil]
      omega
    rw [h0]
    show ((key ++ ":" ++ " ") ++ String.mk (List.replicate 0 ' ')).data
      = (key ++ ":").data ++ [' ']
    rw [show ((key ++ ":" ++ " ") ++ String.mk (List.replicate 0 ' ')).data
      = ((key ++ ":").data ++ [' ']) ++ [] from rfl]
    rw [List.append_nil]
  · intro t s category value k s' h
    obtain ⟨s'', hs'', hp, -, -⟩ := add_line_value_to_some_spec t s category value k
    rw [hs''] at h
    injection h with h
    rw [← h]
    exact hp

/-- C8 (witness): a short key (`License`) pads to the 16-column value
start, a long key gets exactly one trailing space, and a concrete commit
emits the formatted key followed by the value. -/
theorem key_value_formatter_alignment_witness :
    (("License" ++ ":").data.length < keylen ∧
      (format_key "License").data = ("License" ++ ":").data ++
        List.replicate (keylen - ("License" ++ ":").data.length) ' ') ∧
    (keylen ≤ ("VeryLongTagName1" ++ ":").data.length ∧
      (format_key "VeryLongTagName1").data = ("VeryLongTagName1" ++ ":").data ++ [' ']) ∧
    (∃ s', add_line_value_to empty_tables init_state "license" "MIT" (some "License") =
        Except.ok s' ∧
      s'.paragraph "license" = init_state.paragraph "license" ++
        committed init_state.current_group
          ((committed_values empty_tables "license" "MIT").map
            (fun v => format_key "License" ++ v))) :=
  ⟨⟨by decide, (key_value_formatter_alignment.2.1 "License" (by decide)).1⟩,
   ⟨by decide, key_value_formatter_alignment.2.2.1 "VeryLongTagName1" (by decide)⟩,
   _, rfl, key_value_formatter_alignment.2.2.2 empty_tables init_state "license" "MIT"
     "License" _ rfl⟩

theorem add_line_value_to_preserves (t : Tables) (s : EngineState)
    (category value : String) (k? : Option String) (s' : EngineState) (c' : String)
    (hne : c' ≠ category) (h : add_line_value_to t s category value k? = Except.ok s') :
    s'.paragraph c' = s.paragraph c' := by
  cases k? with
  | some k =>
    obtain ⟨s'', hs'', -, hother, -⟩ := add_line_value_to_some_spec t s category value k
    rw [hs''] at h
    injection h with h
    rw [← h]
    exact hother c' hne
  | none =>
    cases hk : lookupTab category_to_key category with
    | some k =>
      obtain ⟨s'', hs'', -, hother, -⟩ := add_line_value_to_none_spec t s category value k hk
      rw [hs''] at h
      injection h with h
      rw [← h]
      exact hother c' hne
    | none =>
      unfold add_line_value_to at h
      rw [hk] at h
      simp at h

theorem end_paragraph_ok_shape (s s' : EngineState) (h : end_paragraph s = Except.ok s') :
    ∃ out, s' = start_paragraph_state { s with lines := s.lines ++ out } := by
  unfold end_paragraph at h
  obtain ⟨out1, -, h⟩ := except_bind_ok h
  revert h
  cases hcg : s.current_group <;> intro h
  · exact ⟨out1, (Except.ok.inj h).symm⟩
  · obtain ⟨ls, -, h⟩ := except_bind_ok h
    exact ⟨out1 ++ ls, (Except.ok.inj h).symm⟩

theorem end_paragraph_paragraph_empty (s s' : EngineState)
    (h : end_paragraph s = Except.ok s') (c : String) : s'.paragraph c = [] := by
  obtain ⟨out, rfl⟩ := end_paragraph_ok_shape s s' h
  rfl

theorem add_requires_phase_empty (t : Tables) (s s' : EngineState) (l : String)
    (hs : s.paragraph "requires_phase" = [])
    (h : add t s l = Except.ok s') : s'.paragraph "requires_phase" = [] := by
  simp only [add] at h
  revert h
  cases hcl : classify (complete_cleanup l) <;> intro h
  case blank =>
    have h2 : Except.ok s = Except.ok s' := h
    injection h2 with h2
    rw [← h2]
    exact hs
  case ifDirective =>
    have h2 : (do
        let s2 ← end_paragraph
          { s with current_group := s.current_group ++ [complete_cleanup l] }
        pure { s2 with previous_line := some (complete_cleanup l) } :
          Except Err EngineState) = Except.ok s' := h
    obtain ⟨s2, hend, h3⟩ := except_bind_ok h2
    injection h3 with h3
    rw [← h3]
    exact end_paragraph_paragraph_empty _ _ hend _
  case comment =>
    have h2 : Except.ok { s with current_group := s.current_group ++ [complete_cleanup l],
                                 previous_line := some (complete_cleanup l) }
        = Except.ok s' := h
    injection h2 with h2
    rw [← h2]
    exact hs
  case source d v =>
    have h2 : add_line_value_to t s "source" v (some ("Source" ++ d)) = Except.ok s' := h
    rw [add_line_value_to_preserves t s "source" v _ s' _ (by decide) h2]
    exact hs
  case patch d v =>
    have h2 : add_line_value_to t
        (if prev_is_comment s.previous_line then s
         else { s with current_group := s.current_group ++ [patch_missing_comment],
                       previous_line := some (complete_cleanup l) })
        "patch" v (some ("Patch" ++ (if d = "" then "0" else "") ++ d)) = Except.ok s' := h
    rw [add_line_value_to_preserves t _ "patch" v _ s' _ (by decide) h2]
    split <;> exact hs
  case prereq v =>
    have h2 : add_line_value_to t
        { s with current_group := s.current_group ++ [prereq_fixme_comment] }
        "prereq" v none = Except.ok s' := h
    rw [add_line_value_to_preserves t _ "prereq" v _ s' _ (by decide) h2]
    exact hs
  case requiresPhase ph v =>
    have h2 : add_line_value_to t s "prereq" v (some ("Requires" ++ ph)) = Except.ok s' := h
    rw [add_line_value_to_preserves t s "prereq" v _ s' _ (by decide) h2]
    exact hs
  case provides v =>
    exact absurd h (by simp)
  case obsoletes v =>
    exact absurd h (by simp)
  case buildroot v =>
    revert h
    cases hbr : s.paragraph "buildroot" <;> intro h
    · have h2 : add_line_value_to t s "buildroot" buildroot_value none = Except.ok s' := h
      rw [add_line_value_to_preserves t s "buildroot" _ _ s' _ (by decide) h2]
      exact hs
    · have h2 : Except.ok s = Except.ok s' := h
      injection h2 with h2
      rw [← h2]
      exact hs
  case license v =>
    have h2 : add_line_value_to t s "license" (fix_license t v) none = Except.ok s' := h
    rw [add_line_value_to_preserves t s "license" _ _ s' _ (by decide) h2]
    exact hs
  case release v =>
    have h2 : add_line_value_to t s "release" "0" none = Except.ok s' := h
    rw [add_line_value_to_preserves t s "release" _ _ s' _ (by decide) h2]
    exact hs
  case summaryLocalized lang v =>
    have h2 : add_line_value_to t s "summary_localized" v (some ("Summary" ++ lang)) =
        Except.ok s' := h
    rw [add_line_value_to_preserves t s "summary_localized" v _ s' _ (by decide) h2]
    exact hs
  case deprecatedTag =>
    have h2 : Except.ok s = Except.ok s' := h
    injection h2 with h2
    rw [← h2]
    exact hs
  case simple c v =>
    have h2 : add_line_value_to t s c v none = Except.ok s' := h
    by_cases hc : "requires_phase" = c
    · rw [← hc] at h2
      unfold add_line_value_to at h2
      rw [show lookupTab category_to_key "requires_phase" = none from rfl] at h2
      simp at h2
    · rw [add_line_value_to_preserves t s c v _ s' _ hc h2]
      exact hs
  case misc =>
    have h2 : Except.ok (add_line_to s "misc" (complete_cleanup l)) = Except.ok s' := h
    injection h2 with h2
    rw [← h2, add_line_to_paragraph_ne s _ _ _ (by decide)]
    exact hs

theorem add_all_requires_phase_empty (t : Tables) :
    ∀ (ls : List String) (s s' : EngineState),
      s.paragraph "requires_phase" = [] → add_all t s ls = Except.ok s' →
      s'.paragraph "requires_phase" = []
  | [], s, s', hs, h => by
    rw [add_all, List.foldlM_nil] at h
    injection h with h
    rw [← h]
    exact hs
  | l :: ls, s, s', hs, h => by
    rw [add_all, List.foldlM_cons] at h
    obtain ⟨s1, h1, h2⟩ := except_bind_ok h
    exact add_all_requires_phase_empty t ls s1 s'
      (add_requires_phase_empty t s s1 l hs h1) h2

/-- C9: the `requires_phase` category is never populated: after any
sequence of `add` calls from a fresh engine, the `requires_phase` slot of
the paragraph is empty (phased-requirement lines go to the prereq
category under a `Requires(phase)` key), so paragraph closure emits zero
lines from that slot. -/
theorem requires_phase_never_populated (t : Tables) (ls : List String) (s' : EngineState)
    (h : add_all t init_state ls = Except.ok s') :
    s'.paragraph "requires_phase" = [] ∧
    category_output s' "requires_phase" = Except.ok [] := by
  have h1 := add_all_requires_phase_empty t ls init_state s' rfl h
  refine ⟨h1, ?_⟩
  unfold category_output
  rw [h1]
  rfl

/-- C9 (witness): a phased-requirement line followed by a name line
leaves the `requires_phase` slot empty and emitting nothing. -/
theorem requires_phase_never_populated_witness :
    ∃ s', add_all empty_tables init_state [ "Requires(pre): x", "Name: n"] = Except.ok s' ∧
      s'.paragraph "requires_phase" = [] ∧
      category_output s' "requires_phase" = Except.ok [] :=
  ⟨_, rfl,
    requires_phase_never_populated empty_tables [ "Requires(pre): x", "Name: n"] _ rfl⟩

/-- C2: canonical emission order.  Closing a paragraph emits, per
category of `categories_order` in that fixed order, the flattened
(sorted, for sortable categories) groups of that category, followed by
the leftover pending buffer: the emitted lines are the concatenation of
the per-category outputs, the category rank of successive emitted lines
is non-decreasing (`rank_seq` assigns each emitted line its category's
rank), and for every sortable category the sorted groups are a
permutation of the inserted ones, carry non-decreasing sort keys, and
equal-key groups keep their insertion order. -/
theorem canonical_emission_order (s s' : EngineState)
    (h : end_paragraph s = Except.ok s') :
    (∃ outs : List (List String),
      categories_order.mapM (category_output s) = Except.ok outs ∧
      s'.lines = s.lines ++ outs.join ++ s.current_group ∧
      List.Pairwise (fun a b : Nat => a ≤ b) (rank_seq 0 outs) ∧
      (rank_seq 0 outs).length = outs.join.length) ∧
    (∀ c : String, (c ∈ categories_with_sorted_package_tokens ∨
        c ∈ categories_with_sorted_keyword_tokens) →
      ∀ gs', sort_groups (s.paragraph c) = Except.ok gs' →
        gs'.Perm (s.paragraph c) ∧
        (∃ ks, gs'.mapM sort_helper_key = Except.ok ks ∧
          List.Pairwise (fun a b => skeyLe a b = true) ks) ∧
        (∀ k : SKey, gs'.filter (fun g => decide (sort_helper_key g = Except.ok k)) =
          (s.paragraph c).filter (fun g => decide (sort_helper_key g = Except.ok k)))) := by
  refine ⟨?_, fun c _ gs' hsort => sort_groups_spec (s.paragraph c) gs' hsort⟩
  unfold end_paragraph at h
  rw [foldlM_append_eq_mapM (category_output s) categories_order []] at h
  cases hm : categories_order.mapM (category_output s) with
  | error e =>
    rw [hm] at h
    simp [Except.map, Bind.bind, Except.bind] at h
  | ok outs =>
    rw [hm] at h
    refine ⟨outs, rfl, ?_, rank_seq_pairwise outs 0, rank_seq_length outs 0⟩
    revert h
    cases hcg : s.current_group <;> intro h
    · have h2 : (pure (start_paragraph_state
          { s with lines := s.lines ++ ([] ++ outs.join) }) : Except Err EngineState)
          = Except.ok s' := h
      injection h2 with h2
      rw [← h2]
      show s.lines ++ ([] ++ outs.join) = s.lines ++ outs.join ++ []
      simp
    · rename_i c cs
      have h2 : ((fun ls => start_paragraph_state
            { s with lines := s.lines ++ ([] ++ outs.join ++ ls) }) <$>
          add_group (PyVal.list ((c :: cs).map PyVal.str)))
          = Except.ok s' := h
      rw [add_group_map_str (c :: cs)] at h2
      have h3 : (pure (start_paragraph_state
          { s with lines := s.lines ++ ([] ++ outs.join ++ (c :: cs)) }) :
            Except Err EngineState) = Except.ok s' := h2
      injection h3 with h3
      rw [← h3]
      show s.lines ++ ([] ++ outs.join ++ (c :: cs)) = s.lines ++ outs.join ++ (c :: cs)
      simp

/-- C2 (witness): a concrete paragraph with two unsorted build-dependency
groups and a trailing comment closes into the category-ordered, sorted
output, and the sortable category's groups are permuted into key order. -/
theorem canonical_emission_order_witness :
    ∃ s', end_paragraph c2_state = Except.ok s' ∧
      (∃ outs : List (List String),
        categories_order.mapM (category_output c2_state) = Except.ok outs ∧
        s'.lines = c2_state.lines ++ outs.join ++ c2_state.current_group ∧
        List.Pairwise (fun a b : Nat => a ≤ b) (rank_seq 0 outs) ∧
        (rank_seq 0 outs).length = outs.join.length) ∧
      (∃ gs', sort_groups (c2_state.paragraph "buildrequires") = Except.ok gs' ∧
        gs'.Perm (c2_state.paragraph "buildrequires")) := by
  have h : end_paragraph c2_state = Except.ok (start_paragraph_state
      { c2_state with lines := [ "Name:           pkg", "BuildRequires:  gcc",
          "BuildRequires:  zlib", "# end"] }) := by rfl
  have hs : sort_groups (c2_state.paragraph "buildrequires") = Except.ok
      [ PyVal.str "BuildRequires:  gcc", PyVal.str "BuildRequires:  zlib"] := by rfl
  exact ⟨_, h, (canonical_emission_order c2_state _ h).1,
    _, hs, ((canonical_emission_order c2_state _ h).2 "buildrequires"
      (Or.inl (by decide)) _ hs).1⟩

/-- C10: a line that is empty after cleanup is transparent to the whole
engine state: `add` returns the state unchanged, so it neither clears
the pending attachment buffer nor updates the last-committed-line
record. -/
theorem blank_line_is_state_transparent (t : Tables) (s : EngineState) (l : String)
    (h : complete_cleanup l = "") : add t s l = Except.ok s := by
  unfold add
  rw [h]
  rfl

/-- C10 (witness): a whitespace-only line cleans to empty and leaves a
fresh engine state untouched. -/
theorem blank_line_is_state_transparent_witness :
    complete_cleanup "   " = "" ∧
    add empty_tables init_state "   " = Except.ok init_state :=
  ⟨rfl, blank_line_is_state_transparent empty_tables init_state "   " rfl⟩

end SpecCleaner
